import Mathlib

/-!
Verification of the population-lifecycle / generational-orchestration engine
of this repository against its specification.

The development shallowly embeds:

* the `run()` orchestrator of `src/__main__.py` as a pure state-passing
  function emitting an explicit event trace (side effects such as
  `os.mkdir`, `kill_macromodel`, `archive_output`, `tar_output`,
  population dumps and progress updates become trace events; the working
  population is threaded explicitly);
* the population container operations (`merge`, `deduplicate`,
  flattening) — the `ga` module itself is not part of the provided
  sources, so these are modelled from the specification, as noted on each
  definition;
* `Smiles.get_key` / `Smiles.get_key_name` from
  `src/src/stk/molecular/key_makers/smiles.py`;
* `BuildingBlock._normalize_placer_ids` and
  `BuildingBlock.init_from_file` (with a faithful model of posix
  `os.path.splitext`) from
  `src/src/stk/molecular/molecules/building_block.py`.
-/

namespace Stk

/-- A population member (`MacroMolecule` in the source), reduced to the
bookkeeping the orchestration-level claims need: its structural identity
fingerprint, used for equality and deduplication. -/
structure Candidate where
  identity : Nat
deriving DecidableEq, Repr

/-- A flattened population: the list of candidates in flattening order. -/
abbrev PopL := List Candidate

mutual

/-- Modelled from the spec: a `Population` (the `ga` module is not under
`src/`) is a rooted tree; a node holds zero or more direct candidates plus
zero or more child subpopulations (spec section 3). -/
inductive Pop : Type where
  | node : List Candidate → Subs → Pop

/-- The list of child subpopulations of a population node. -/
inductive Subs : Type where
  | nil : Subs
  | cons : Pop → Subs → Subs

end

/-- A population holding the given candidates directly, with no
subpopulations. -/
def ofList (l : PopL) : Pop := Pop.node l Subs.nil

/-- Modelled from the spec: `Population.merge` (not under `src/`) returns a
new population whose flattened candidate list is the concatenation of both
arguments' flattened candidates, preserving both as subpopulations
(spec section 4.1). -/
def mergeP (a b : Pop) : Pop := Pop.node [] (Subs.cons a (Subs.cons b Subs.nil))

mutual

/-- Flattened iteration over a population tree: direct candidates first,
then all candidates of the subpopulations, in order. -/
def flattenPop : Pop → PopL
  | Pop.node d s => d ++ flattenSubs s

/-- Flattening of a list of subpopulations, in order. -/
def flattenSubs : Subs → PopL
  | Subs.nil => []
  | Subs.cons p ps => flattenPop p ++ flattenSubs ps

end

/-- First-occurrence deduplication of a candidate list, threading the set of
already-seen identities; returns the kept candidates and the updated seen
set. -/
def dedupDirect : List Nat → List Candidate → List Candidate × List Nat
  | seen, [] => ([], seen)
  | seen, c :: cs =>
    if c.identity ∈ seen then dedupDirect seen cs
    else
      let r := dedupDirect (c.identity :: seen) cs
      (c :: r.1, r.2)

mutual

/-- Modelled from the spec: `Population.remove_duplicates` /
`deduplicate` (not under `src/`) keeps, for each distinct identity, the
first occurrence in flattening order, otherwise preserving order and tree
shape (spec section 4.1). The seen-identity set is threaded through the
tree in flattening order. -/
def dedupPopAux : List Nat → Pop → Pop × List Nat
  | seen, Pop.node d s =>
    let dd := dedupDirect seen d
    let ss := dedupSubsAux dd.2 s
    (Pop.node dd.1 ss.1, ss.2)

/-- Deduplication threaded through a list of subpopulations. -/
def dedupSubsAux : List Nat → Subs → Subs × List Nat
  | seen, Subs.nil => (Subs.nil, seen)
  | seen, Subs.cons p ps =>
    let pp := dedupPopAux seen p
    let pps := dedupSubsAux pp.2 ps
    (Subs.cons pp.1 pps.1, pps.2)

end

/-- Deduplicate a whole population, starting from an empty seen set. -/
def dedupPop (p : Pop) : Pop := (dedupPopAux [] p).1

/-!
## The `run()` orchestrator of `src/__main__.py`

The orchestrator is embedded as a pure function from run parameters to an
event trace paired with a result (either the final population or the
fatal `PopulationSizeError`).  The pluggable GA strategies
(`gen_offspring`, `gen_mutants`, `optimize_population`,
`calculate_member_fitness`, `normalize_fitness_values`, `gen_next_gen`,
`exit`) live in the `ga` module, which is not under `src/`; they are
opaque collaborators here, modelled as arbitrary functions supplied in
`RunParams`.  Because the Python strategy objects are stateful and may
observe run progress, each function additionally receives the current
generation index (index 0 denotes the initial, pre-loop phase);
instantiating them with index-independent functions recovers stateless
strategies. -/

/-- The configuration and strategy bundle of one GA run
(`GAInput` plus the bound `GATools` strategies). -/
structure RunParams where
  /-- `ga_input.num_generations`. -/
  numGenerations : Nat
  /-- `ga_input.pop_size` as configured in the input file. -/
  configPopSize : Nat
  /-- Whether the configured initialization function is `load`
  (`pop_init.__name__ == 'load'`, `src/__main__.py` line 64). -/
  initIsLoad : Bool
  /-- The generation-0 population produced by the initializer. -/
  initialPop : PopL
  /-- `pop.optimize_population()` rebuilt into a new `Population`. -/
  optimizePop : Nat → PopL → PopL
  /-- `pop.calculate_member_fitness()` rebuilt into a new `Population`. -/
  calcFitness : Nat → PopL → PopL
  /-- `pop.normalize_fitness_values()` (state passing for the in-place
  update of member fitness values). -/
  normalizeFit : Nat → PopL → PopL
  /-- `pop.gen_offspring()`. -/
  genOffspring : Nat → PopL → PopL
  /-- `pop.gen_mutants()`. -/
  genMutants : Nat → PopL → PopL
  /-- `pop.gen_next_gen(pop_size)`: survivor selection. -/
  genNextGen : Nat → Nat → PopL → PopL
  /-- Modelled from the spec: `Population.exit()` (not under `src/`)
  evaluates the optional exit predicate; the predicate may be absent, in
  which case the run always completes all configured generations, i.e.
  the check reports `false` (spec sections 3 and 4.2). -/
  exitPred : Option (Nat → PopL → Bool)

/-- The fatal, run-aborting error of `src/__main__.py` line 109. -/
inductive RunError where
  | popSizeError
deriving DecidableEq, Repr

/-- Observable actions of `run()`, in program order.  Generation-indexed
events carry the index of the generation emitting them (0 for the initial
phase). -/
inductive Event where
  /-- `kill_macromodel()`: external-process cleanup hook. -/
  | kill
  /-- `archive_output()`: moves an existing `output` directory into
  `old_output` — a directory-move operation. -/
  | archive
  /-- `os.mkdir('output')`. -/
  | mkdirOutput
  /-- `shutil.copyfile(sys.argv[1], ...)`. -/
  | copyInput
  /-- `os.mkdir('initial')`: the initial checkpoint directory. -/
  | mkdirInitial
  /-- Running the configured initializer (load or fresh generation). -/
  | initPop (isLoad : Bool)
  /-- `pop.write(os.getcwd())` performed on a restored population. -/
  | writeInitialPop
  /-- Structural optimization applied to the given population. -/
  | optimize (g : Nat) (input : PopL)
  /-- Fitness calculation applied to the given population. -/
  | evaluate (g : Nat) (input : PopL)
  /-- Fitness normalization applied to the given population. -/
  | normalize (g : Nat) (input : PopL)
  /-- `pop.dump(...)`; `preselection` is true for the
  `preselection_pop_dump` of a generation, false for a `pop_dump`. -/
  | dumpPop (g : Nat) (preselection : Bool)
  /-- `progress.update(pop)`. -/
  | progressUpdate (g : Nat)
  /-- The generation-top population-size check of line 108, recording the
  flattened size found and whether it matched. -/
  | sizeCheck (g n : Nat) (ok : Bool)
  /-- `os.mkdir(str(x))`: the per-generation checkpoint directory. -/
  | mkdirGenDir (g : Nat)
  /-- `pop.gen_offspring()`. -/
  | crossover (g : Nat)
  /-- `pop.gen_mutants()`. -/
  | mutation (g : Nat)
  /-- `pop += offspring + mutants` followed by
  `pop.remove_duplicates()`, recording the resulting flattened
  population. -/
  | mergeDedup (g : Nat) (result : PopL)
  /-- `pop.gen_next_gen(pop_size)`, recording its input (the normalized
  population) and its result (the survivors). -/
  | select (g : Nat) (input result : PopL)
  /-- `os.mkdir('selected')`. -/
  | mkdirSelected (g : Nat)
  /-- `pop.write(...)` into the `selected` directory. -/
  | writePop (g : Nat)
  /-- `pop.exit()`, recording whether the exit criterion fired. -/
  | exitCheck (g : Nat) (fired : Bool)
  /-- `plot.epp(...)`. -/
  | plotEpp
  /-- Pickling the `GAProgress` instance to `progress.dmp`. -/
  | dumpProgress
  /-- `tar_output()`. -/
  | tar
deriving DecidableEq, Repr

/-- The generation index carried by a generation-indexed event, if any. -/
def evGen : Event → Option Nat
  | Event.optimize g _ => some g
  | Event.evaluate g _ => some g
  | Event.normalize g _ => some g
  | Event.dumpPop g _ => some g
  | Event.progressUpdate g => some g
  | Event.sizeCheck g _ _ => some g
  | Event.mkdirGenDir g => some g
  | Event.crossover g => some g
  | Event.mutation g => some g
  | Event.mergeDedup g _ => some g
  | Event.select g _ _ => some g
  | Event.mkdirSelected g => some g
  | Event.writePop g => some g
  | Event.exitCheck g _ => some g
  | _ => none

/-- The effective `pop_size` of the run: restoring from a checkpoint
overwrites the configured size with the restored population's size
(`src/__main__.py` line 67). -/
def effPopSize (p : RunParams) : Nat :=
  if p.initIsLoad then p.initialPop.length else p.configPopSize

/-- `src/__main__.py` lines 129-135: `pop += offspring + mutants` followed
by `pop.remove_duplicates()` — the flattened working population after the
merge-and-deduplicate step of generation `g`, entered with population
`pop`. -/
def mergedPop (p : RunParams) (g : Nat) (pop : PopL) : PopL :=
  flattenPop (dedupPop
    (mergeP (ofList pop)
      (mergeP (ofList (p.genOffspring g pop)) (ofList (p.genMutants g pop)))))

/-- The population after the in-loop `optimize_population` of
generation `g` (`src/__main__.py` line 141). -/
def optPop (p : RunParams) (g : Nat) (pop : PopL) : PopL :=
  p.optimizePop g (mergedPop p g pop)

/-- The population after the in-loop `calculate_member_fitness` of
generation `g` (`src/__main__.py` line 145). -/
def evPop (p : RunParams) (g : Nat) (pop : PopL) : PopL :=
  p.calcFitness g (optPop p g pop)

/-- The population after the in-loop `normalize_fitness_values` of
generation `g` (`src/__main__.py` line 150). -/
def nmPop (p : RunParams) (g : Nat) (pop : PopL) : PopL :=
  p.normalizeFit g (evPop p g pop)

/-- The survivors returned by `pop.gen_next_gen(pop_size)` in
generation `g` (`src/__main__.py` line 160). -/
def selPop (p : RunParams) (ps g : Nat) (pop : PopL) : PopL :=
  p.genNextGen g ps (nmPop p g pop)

/-- The result of `pop.exit()` at the end of generation `g`
(`src/__main__.py` line 179); `false` when no exit predicate is
configured. -/
def firedAt (p : RunParams) (ps g : Nat) (pop : PopL) : Bool :=
  match p.exitPred with
  | none => false
  | some f => f g (selPop p ps g pop)

/-- The ordered event list of one generation body, parameterized by the
populations computed at each stage. -/
def genStages (g : Nat) (merged opt ev nm sel : PopL) (fired : Bool) :
    List Event :=
  [Event.mkdirGenDir g,
   Event.crossover g,
   Event.mutation g,
   Event.mergeDedup g merged,
   Event.dumpPop g true,
   Event.optimize g merged,
   Event.evaluate g opt,
   Event.normalize g ev,
   Event.select g nm sel,
   Event.mkdirSelected g,
   Event.writePop g,
   Event.dumpPop g false,
   Event.progressUpdate g,
   Event.exitCheck g fired]

/-- The events emitted by the body of generation `g` entered with
population `pop` (`src/__main__.py` lines 111-180, after the size
check). -/
def genStepEvs (p : RunParams) (ps g : Nat) (pop : PopL) : List Event :=
  genStages g (mergedPop p g pop) (optPop p g pop) (evPop p g pop)
    (nmPop p g pop) (selPop p ps g pop) (firedAt p ps g pop)

/-- The generation loop of `src/__main__.py` lines 106-180: `g` is the
index of the next generation, the second argument the number of
generations still to run, `pop` the current working population.  Each
iteration first checks the flattened size against `ps`; a mismatch raises
the fatal `PopulationSizeError`, ending the run at once.  A fired exit
check breaks out of the loop with the current survivors. -/
def gaLoop (p : RunParams) (ps : Nat) :
    Nat → Nat → PopL → List Event × Except RunError PopL
  | _g, 0, pop => ([], Except.ok pop)
  | g, r + 1, pop =>
    if pop.length = ps then
      if firedAt p ps g pop then
        (Event.sizeCheck g pop.length true :: genStepEvs p ps g pop,
         Except.ok (selPop p ps g pop))
      else
        (Event.sizeCheck g pop.length true ::
           (genStepEvs p ps g pop ++
             (gaLoop p ps (g + 1) r (selPop p ps g pop)).1),
         (gaLoop p ps (g + 1) r (selPop p ps g pop)).2)
    else
      ([Event.sizeCheck g pop.length false], Except.error RunError.popSizeError)

/-- The population at the end of the initial phase
(`src/__main__.py` lines 81-91): generation 0 optimization, fitness
calculation and normalization applied to the initializer's population. -/
def initialPhasePop (p : RunParams) : PopL :=
  p.normalizeFit 0 (p.calcFitness 0 (p.optimizePop 0 p.initialPop))

/-- The events of `run()` before the generation loop
(`src/__main__.py` lines 31-103). -/
def preEvents (p : RunParams) : List Event :=
  [Event.kill, Event.archive, Event.mkdirOutput, Event.copyInput,
   Event.mkdirInitial, Event.initPop p.initIsLoad]
  ++ (if p.initIsLoad then [Event.writeInitialPop] else [])
  ++ [Event.optimize 0 p.initialPop,
      Event.evaluate 0 (p.optimizePop 0 p.initialPop),
      Event.normalize 0 (p.calcFitness 0 (p.optimizePop 0 p.initialPop)),
      Event.dumpPop 0 false,
      Event.progressUpdate 0]

/-- The events of `run()` after the generation loop completes without a
fatal error (`src/__main__.py` lines 182-206). -/
def postEvents : List Event :=
  [Event.kill, Event.plotEpp, Event.dumpProgress, Event.tar, Event.archive]

/-- The generation loop of the run, started at generation 1 with the
initial-phase population and the effective population size. -/
def loopOf (p : RunParams) : List Event × Except RunError PopL :=
  gaLoop p (effPopSize p) 1 p.numGenerations (initialPhasePop p)

/-- The `run()` function of `src/__main__.py`: the full event trace of
the run together with its result.  A `PopulationSizeError` propagates,
skipping the post-loop phase. -/
def run (p : RunParams) : List Event × Except RunError PopL :=
  match (loopOf p).2 with
  | Except.error e => (preEvents p ++ (loopOf p).1, Except.error e)
  | Except.ok q => (preEvents p ++ (loopOf p).1 ++ postEvents, Except.ok q)

/-!
## `Smiles` key maker (`src/src/stk/molecular/key_makers/smiles.py`)
-/

/-- The structural content of a molecule: atomic numbers in atom order and
bonds as (begin atom id, end atom id, order). -/
structure MolStructData where
  atomicNumbers : List Nat
  bonds : List (Nat × Nat × Nat)
deriving DecidableEq, Repr

/-- A molecule value: its structural content plus an in-memory object
identity (distinct Python objects for the same structure have distinct
`objectId`s; a reloaded molecule in another process has a fresh one). -/
structure Molecule where
  objectId : Nat
  struct : MolStructData
deriving DecidableEq, Repr

/-- A concrete serialization of structural content, standing in for the
canonical SMILES string. -/
def serializeStruct (s : MolStructData) : String :=
  toString s.atomicNumbers ++ toString s.bonds

/-- Modelled from the spec: `get_smiles`
(`src/src/stk/molecular/key_makers/utilities.py`, not under `src/`)
computes the canonical SMILES of a molecule — per the spec a structural
fingerprint that is stable across process restarts and independent of
in-memory object identity, i.e. a deterministic function of the
molecule's structural content alone (spec section 3, `identity`). -/
def get_smiles (molecule : Molecule) : String :=
  serializeStruct molecule.struct

/-- `Smiles.get_key_name` (`smiles.py` lines 51-52). -/
def Smiles.get_key_name : String := "SMILES"

/-- `Smiles.get_key` (`smiles.py` lines 54-55). -/
def Smiles.get_key (molecule : Molecule) : String := get_smiles molecule

/-!
## `BuildingBlock` (`src/src/stk/molecular/molecules/building_block.py`)
-/

/-- An atom of a building block (`stk.molecular.atoms.Atom`): its id,
atomic number and formal charge. -/
structure Atom where
  id : Nat
  atomicNumber : Nat
  charge : Int
deriving DecidableEq, Repr

/-- `Atom.get_id`. -/
def Atom.get_id (a : Atom) : Nat := a.id

/-- A functional group of a building block, reduced to the data
`_normalize_placer_ids` reads: the ids returned by its
`get_placer_ids()`. -/
structure FunctionalGroup where
  placerIds : List Nat
deriving DecidableEq, Repr

/-- `FunctionalGroup.get_placer_ids`. -/
def FunctionalGroup.get_placer_ids (fg : FunctionalGroup) : List Nat :=
  fg.placerIds

/-- The `stk.utilities.flatten` helper (not under `src/`), applied as in
`_normalize_placer_ids` to a sequence of integer tuples: integers are not
iterable, so flattening yields the elements of each tuple in order. -/
def flatten : List (List Nat) → List Nat
  | [] => []
  | x :: xs => x ++ flatten xs

/-- `BuildingBlock._normalize_placer_ids` (`building_block.py` lines
672-713): if `placer_ids` was supplied it is returned verbatim; otherwise
if the building block has functional groups (Python truthiness: the tuple
is non-empty) the flattened placer ids of the functional groups are
returned; otherwise the ids of all atoms. -/
def normalize_placer_ids (atoms : List Atom)
    (placer_ids : Option (List Nat))
    (functional_groups : List FunctionalGroup) : List Nat :=
  match placer_ids with
  | some ids => ids
  | none =>
    if functional_groups.isEmpty then
      atoms.map Atom.get_id
    else
      flatten (functional_groups.map FunctionalGroup.get_placer_ids)

/-- The index of the last occurrence of `c` in `l`, if any. -/
def lastIndexOf (c : Char) : List Char → Option Nat
  | [] => none
  | x :: xs =>
    match lastIndexOf c xs with
    | some i => some (i + 1)
    | none => if x = c then some 0 else none

/-- The split position of posix `os.path.splitext`: the index of the last
dot, provided it lies strictly after the last path separator and the
basename does not consist solely of leading dots up to it (leading dots
mark hidden files, not extensions).  `none` when the path has no
extension. -/
def extSplitIdx (l : List Char) : Option Nat :=
  match lastIndexOf '.' l with
  | none => none
  | some d =>
    let s : Nat :=
      match lastIndexOf '/' l with
      | none => 0
      | some si => si + 1
    let sepOk : Bool :=
      match lastIndexOf '/' l with
      | none => true
      | some si => decide (si < d)
    if sepOk && ((l.drop s).take (d - s)).any (fun ch => ch ≠ '.') then
      some d
    else
      none

/-- `os.path.splitext` (posix): splits a path into root and extension;
the extension is empty when the basename has no dot after its leading
dots. -/
def splitext (p : String) : String × String :=
  match extSplitIdx p.data with
  | some d => (String.mk (p.data.take d), String.mk (p.data.drop d))
  | none => (p, "")

/-- The rdkit parsing functions used by `BuildingBlock._init_funcs`
(`building_block.py` lines 48-67), identified by name. -/
inductive RdkitParser where
  /-- `rdkit.MolFromMolFile` with `sanitize=False, removeHs=False`. -/
  | molFromMolFile
  /-- `rdkit.MolFromPDBFile` with `sanitize=False, removeHs=False,
  proximityBonding=False`. -/
  | molFromPDBFile
deriving DecidableEq, Repr

/-- `BuildingBlock._init_funcs` (`building_block.py` lines 48-67): the
map from file extensions to rdkit parsing functions. -/
def init_funcs : List (String × RdkitParser) :=
  [(".mol", RdkitParser.molFromMolFile),
   (".sdf", RdkitParser.molFromMolFile),
   (".pdb", RdkitParser.molFromPDBFile)]

/-- `BuildingBlock.init_from_file` (`building_block.py` lines 507-523),
up to the routing decision: the extension of the path is computed with
`os.path.splitext`; an extension outside `_init_funcs` raises
`ValueError`, otherwise the file is handed to the corresponding rdkit
parser (the subsequent `remake` and `init_from_rdkit_mol` consume the
parser's output and are outside this claim). -/
def init_from_file (path : String) : Except String RdkitParser :=
  let extension := (splitext path).2
  match init_funcs.lookup extension with
  | none =>
    Except.error ("Unable to initialize from " ++ extension ++ " files.")
  | some f => Except.ok f

/-!
## Trace observations and concrete run instances
-/

/-- Whether an event is the exit check of generation `x`. -/
def isExitAt (x : Nat) : Event → Bool
  | Event.exitCheck g _ => g == x
  | _ => false

/-- The number of per-generation checkpoint directories
(`os.mkdir(str(x))`) created in a trace. -/
def genDirCount (tr : List Event) : Nat :=
  tr.countP fun e =>
    match e with
    | Event.mkdirGenDir _ => true
    | _ => false

/-- The number of checkpoint directories of any kind (`initial` plus the
per-generation directories) created in a trace. -/
def checkpointDirCount (tr : List Event) : Nat :=
  tr.countP fun e =>
    match e with
    | Event.mkdirGenDir _ => true
    | Event.mkdirInitial => true
    | _ => false

/-- A small well-behaved run: 2 generations, population size 2, identity
strategies, no exit predicate. -/
def baseParams : RunParams where
  numGenerations := 2
  configPopSize := 2
  initIsLoad := false
  initialPop := [⟨0⟩, ⟨1⟩]
  optimizePop := fun _ q => q
  calcFitness := fun _ q => q
  normalizeFit := fun _ q => q
  genOffspring := fun _ _ => []
  genMutants := fun _ _ => []
  genNextGen := fun _ _ q => q
  exitPred := none

/-- A restart-mode run: the initializer is `load`, restoring 3 candidates
while the input file configures `pop_size = 7`. -/
def loadParams : RunParams :=
  { baseParams with
      initIsLoad := true
      configPopSize := 7
      initialPop := [⟨0⟩, ⟨1⟩, ⟨2⟩] }

/-- A 1-generation run whose survivor selection returns 3 candidates
although `pop_size = 2`: the selection result is never size-checked,
because the loop ends before the next generation-top check. -/
def oversizedSelectParams : RunParams :=
  { baseParams with
      numGenerations := 1
      genNextGen := fun _ _ q => ⟨2⟩ :: q }

/-- A run with an initial population of the wrong size, tripping the
generation-top size check immediately. -/
def undersizedParams : RunParams :=
  { baseParams with initialPop := [⟨0⟩] }

/-- The end-to-end exit scenario: 3 configured generations and an exit
predicate whose criterion becomes satisfied after generation 1, so that
the check at the end of generation 1 still reports `false` and the check
at the end of generation 2 reports `true`. -/
def exitScenarioParams : RunParams :=
  { baseParams with
      numGenerations := 3
      exitPred := some fun g _ => decide (2 ≤ g) }

/-!
## Population-operation lemmas
-/

theorem dedupDirect_append (seen : List Nat) (l1 l2 : List Candidate) :
    dedupDirect seen (l1 ++ l2)
      = ((dedupDirect seen l1).1
           ++ (dedupDirect (dedupDirect seen l1).2 l2).1,
         (dedupDirect (dedupDirect seen l1).2 l2).2) := by
  induction l1 generalizing seen with
  | nil => simp [dedupDirect]
  | cons c cs ih =>
    by_cases h : c.identity ∈ seen
    · simp [dedupDirect, h, ih]
    · simp [dedupDirect, h, ih]

mutual

theorem flatten_dedupPopAux (seen : List Nat) (p : Pop) :
    flattenPop (dedupPopAux seen p).1 = (dedupDirect seen (flattenPop p)).1
    ∧ (dedupPopAux seen p).2 = (dedupDirect seen (flattenPop p)).2 := by
  cases p with
  | node d s =>
    have hs := flatten_dedupSubsAux (dedupDirect seen d).2 s
    simp only [dedupPopAux, flattenPop, dedupDirect_append]
    exact ⟨by rw [hs.1], by rw [hs.2]⟩

theorem flatten_dedupSubsAux (seen : List Nat) (s : Subs) :
    flattenSubs (dedupSubsAux seen s).1 = (dedupDirect seen (flattenSubs s)).1
    ∧ (dedupSubsAux seen s).2 = (dedupDirect seen (flattenSubs s)).2 := by
  cases s with
  | nil => simp [dedupSubsAux, flattenSubs, dedupDirect]
  | cons p ps =>
    have hp := flatten_dedupPopAux seen p
    have hps := flatten_dedupSubsAux (dedupPopAux seen p).2 ps
    simp only [dedupSubsAux, flattenSubs, dedupDirect_append]
    refine ⟨?_, ?_⟩
    · rw [hp.1, hps.1, hp.2]
    · rw [hps.2, hp.2]

end

theorem flattenPop_mergeP (a b : Pop) :
    flattenPop (mergeP a b) = flattenPop a ++ flattenPop b := by
  simp [mergeP, flattenPop, flattenSubs]

theorem flattenPop_dedupPop (p : Pop) :
    flattenPop (dedupPop p) = (dedupDirect [] (flattenPop p)).1 :=
  (flatten_dedupPopAux [] p).1

/-!
## Run-model lemmas: unfolding equations and membership facts
-/

theorem gaLoop_zero (p : RunParams) (ps g : Nat) (pop : PopL) :
    gaLoop p ps g 0 pop = ([], Except.ok pop) := rfl

theorem gaLoop_succ_bad (p : RunParams) (ps g r : Nat) (pop : PopL)
    (h : ¬pop.length = ps) :
    gaLoop p ps g (r + 1) pop
      = ([Event.sizeCheck g pop.length false],
         Except.error RunError.popSizeError) := by
  rw [gaLoop, if_neg h]

theorem gaLoop_succ_fired (p : RunParams) (ps g r : Nat) (pop : PopL)
    (h : pop.length = ps) (hf : firedAt p ps g pop = true) :
    gaLoop p ps g (r + 1) pop
      = (Event.sizeCheck g pop.length true :: genStepEvs p ps g pop,
         Except.ok (selPop p ps g pop)) := by
  rw [gaLoop, if_pos h, if_pos hf]

theorem gaLoop_succ_cont (p : RunParams) (ps g r : Nat) (pop : PopL)
    (h : pop.length = ps) (hf : firedAt p ps g pop = false) :
    gaLoop p ps g (r + 1) pop
      = (Event.sizeCheck g pop.length true ::
           (genStepEvs p ps g pop
             ++ (gaLoop p ps (g + 1) r (selPop p ps g pop)).1),
         (gaLoop p ps (g + 1) r (selPop p ps g pop)).2) := by
  rw [gaLoop, if_pos h, if_neg (by simp [hf])]

theorem firedAt_none (p : RunParams) (ps g : Nat) (pop : PopL)
    (h : p.exitPred = none) : firedAt p ps g pop = false := by
  simp [firedAt, h]

theorem genStepEvs_evGen (p : RunParams) (ps g : Nat) (pop : PopL) :
    ∀ e ∈ genStepEvs p ps g pop, evGen e = some g := by
  intro e he
  simp only [genStepEvs, genStages, List.mem_cons, List.not_mem_nil,
    or_false] at he
  rcases he with rfl | rfl | rfl | rfl | rfl | rfl | rfl | rfl | rfl | rfl
    | rfl | rfl | rfl | rfl <;> rfl

theorem crossover_mem_genStepEvs (p : RunParams) (ps g : Nat) (pop : PopL)
    (x : Nat) : Event.crossover x ∈ genStepEvs p ps g pop ↔ x = g := by
  simp [genStepEvs, genStages]

theorem exitCheck_mem_genStepEvs (p : RunParams) (ps g : Nat) (pop : PopL)
    (x : Nat) (b : Bool) (h : Event.exitCheck x b ∈ genStepEvs p ps g pop) :
    x = g ∧ b = firedAt p ps g pop := by
  simp [genStepEvs, genStages] at h
  exact h

theorem select_mem_genStepEvs (p : RunParams) (ps g : Nat) (pop : PopL)
    (x : Nat) (inp res : PopL)
    (h : Event.select x inp res ∈ genStepEvs p ps g pop) :
    x = g ∧ inp = nmPop p g pop ∧ res = selPop p ps g pop := by
  simp [genStepEvs, genStages] at h
  exact h

theorem sizeCheck_not_mem_genStepEvs (p : RunParams) (ps g : Nat)
    (pop : PopL) (x n : Nat) (b : Bool) :
    Event.sizeCheck x n b ∉ genStepEvs p ps g pop := by
  simp [genStepEvs, genStages]

theorem tar_not_mem_genStepEvs (p : RunParams) (ps g : Nat) (pop : PopL) :
    Event.tar ∉ genStepEvs p ps g pop := by
  simp [genStepEvs, genStages]

theorem countExit_genStepEvs (p : RunParams) (ps g : Nat) (pop : PopL)
    (x : Nat) :
    (genStepEvs p ps g pop).countP (isExitAt x) = if x = g then 1 else 0 := by
  by_cases h : x = g
  · simp [genStepEvs, genStages, isExitAt, List.countP_cons, h]
  · have h' : ¬g = x := fun hgx => h hgx.symm
    simp [genStepEvs, genStages, isExitAt, List.countP_cons, h, h']

theorem sizeCheck_not_mem_preEvents (p : RunParams) (x n : Nat) (b : Bool) :
    Event.sizeCheck x n b ∉ preEvents p := by
  cases hL : p.initIsLoad <;> simp [preEvents, hL]

theorem crossover_not_mem_preEvents (p : RunParams) (x : Nat) :
    Event.crossover x ∉ preEvents p := by
  cases hL : p.initIsLoad <;> simp [preEvents, hL]

theorem exitCheck_not_mem_preEvents (p : RunParams) (x : Nat) (b : Bool) :
    Event.exitCheck x b ∉ preEvents p := by
  cases hL : p.initIsLoad <;> simp [preEvents, hL]

theorem select_not_mem_preEvents (p : RunParams) (x : Nat) (inp res : PopL) :
    Event.select x inp res ∉ preEvents p := by
  cases hL : p.initIsLoad <;> simp [preEvents, hL]

theorem progressUpdate_not_mem_postEvents (x : Nat) :
    Event.progressUpdate x ∉ postEvents := by
  simp [postEvents]

theorem tar_not_mem_preEvents (p : RunParams) : Event.tar ∉ preEvents p := by
  cases hL : p.initIsLoad <;> simp [preEvents, hL]

theorem sizeCheck_not_mem_postEvents (x n : Nat) (b : Bool) :
    Event.sizeCheck x n b ∉ postEvents := by
  simp [postEvents]

theorem crossover_not_mem_postEvents (x : Nat) :
    Event.crossover x ∉ postEvents := by
  simp [postEvents]

theorem exitCheck_not_mem_postEvents (x : Nat) (b : Bool) :
    Event.exitCheck x b ∉ postEvents := by
  simp [postEvents]

theorem select_not_mem_postEvents (x : Nat) (inp res : PopL) :
    Event.select x inp res ∉ postEvents := by
  simp [postEvents]

theorem run_error_eq (p : RunParams) (e : RunError)
    (h : (loopOf p).2 = Except.error e) :
    run p = (preEvents p ++ (loopOf p).1, Except.error e) := by
  simp only [run, h]

theorem run_ok_eq (p : RunParams) (q : PopL)
    (h : (loopOf p).2 = Except.ok q) :
    run p = (preEvents p ++ (loopOf p).1 ++ postEvents, Except.ok q) := by
  simp only [run, h]

theorem sublist_append_middle {α : Type} {l m : List α} (pre post : List α)
    (h : List.Sublist l m) : List.Sublist l (pre ++ m ++ post) := by
  have h1 : List.Sublist m (m ++ post) := List.sublist_append_left m post
  have h2 : List.Sublist (m ++ post) (pre ++ (m ++ post)) :=
    List.sublist_append_right pre (m ++ post)
  have := (h.trans h1).trans h2
  rwa [← List.append_assoc] at this

/-!
## Run-model lemmas: the generation loop
-/

theorem gaLoop_evGen_lb (p : RunParams) (ps : Nat) :
    ∀ (r g : Nat) (pop : PopL), ∀ e ∈ (gaLoop p ps g r pop).1,
      ∀ y, evGen e = some y → g ≤ y := by
  intro r
  induction r with
  | zero =>
    intro g pop e he
    rw [gaLoop_zero] at he
    simp at he
  | succ n ih =>
    intro g pop e he y hy
    by_cases hlen : pop.length = ps
    · cases hf : firedAt p ps g pop with
      | true =>
        rw [gaLoop_succ_fired p ps g n pop hlen hf] at he
        rcases List.mem_cons.mp he with rfl | he
        · simp [evGen] at hy
          omega
        · have hgv := genStepEvs_evGen p ps g pop e he
          rw [hgv] at hy
          injection hy with hy
          omega
      | false =>
        rw [gaLoop_succ_cont p ps g n pop hlen hf] at he
        rcases List.mem_cons.mp he with rfl | he
        · simp [evGen] at hy
          omega
        · rcases List.mem_append.mp he with he | he
          · have hgv := genStepEvs_evGen p ps g pop e he
            rw [hgv] at hy
            injection hy with hy
            omega
          · have := ih (g + 1) (selPop p ps g pop) e he y hy
            omega
    · rw [gaLoop_succ_bad p ps g n pop hlen] at he
      rcases List.mem_cons.mp he with rfl | he
      · simp [evGen] at hy
        omega
      · simp at he

theorem gaLoop_no_tar (p : RunParams) (ps : Nat) :
    ∀ (r g : Nat) (pop : PopL), Event.tar ∉ (gaLoop p ps g r pop).1 := by
  intro r
  induction r with
  | zero =>
    intro g pop h
    rw [gaLoop_zero] at h
    simp at h
  | succ n ih =>
    intro g pop h
    by_cases hlen : pop.length = ps
    · cases hf : firedAt p ps g pop with
      | true =>
        rw [gaLoop_succ_fired p ps g n pop hlen hf] at h
        rcases List.mem_cons.mp h with h | h
        · exact Event.noConfusion h
        · exact tar_not_mem_genStepEvs p ps g pop h
      | false =>
        rw [gaLoop_succ_cont p ps g n pop hlen hf] at h
        rcases List.mem_cons.mp h with h | h
        · exact Event.noConfusion h
        · rcases List.mem_append.mp h with h | h
          · exact tar_not_mem_genStepEvs p ps g pop h
          · exact ih (g + 1) (selPop p ps g pop) h
    · rw [gaLoop_succ_bad p ps g n pop hlen] at h
      simp at h

theorem gaLoop_sizeCheck_val (p : RunParams) (ps : Nat) :
    ∀ (r g : Nat) (pop : PopL) (x n : Nat) (b : Bool),
      Event.sizeCheck x n b ∈ (gaLoop p ps g r pop).1 →
      b = decide (n = ps) := by
  intro r
  induction r with
  | zero =>
    intro g pop x n b h
    rw [gaLoop_zero] at h
    simp at h
  | succ m ih =>
    intro g pop x n b h
    by_cases hlen : pop.length = ps
    · cases hf : firedAt p ps g pop with
      | true =>
        rw [gaLoop_succ_fired p ps g m pop hlen hf] at h
        rcases List.mem_cons.mp h with h | h
        · injection h with h1 h2 h3
          subst h2
          subst h3
          simp [hlen]
        · exact absurd h (sizeCheck_not_mem_genStepEvs p ps g pop x n b)
      | false =>
        rw [gaLoop_succ_cont p ps g m pop hlen hf] at h
        rcases List.mem_cons.mp h with h | h
        · injection h with h1 h2 h3
          subst h2
          subst h3
          simp [hlen]
        · rcases List.mem_append.mp h with h | h
          · exact absurd h (sizeCheck_not_mem_genStepEvs p ps g pop x n b)
          · exact ih (g + 1) (selPop p ps g pop) x n b h
    · rw [gaLoop_succ_bad p ps g m pop hlen] at h
      rcases List.mem_cons.mp h with h | h
      · injection h with h1 h2 h3
        subst h2
        subst h3
        simp [hlen]
      · simp at h

theorem isExitAt_true_evGen (x : Nat) (e : Event) (h : isExitAt x e = true) :
    evGen e = some x := by
  cases e <;> simp_all [isExitAt, evGen]

theorem gaLoop_falseCheck (p : RunParams) (ps : Nat) :
    ∀ (r g : Nat) (pop : PopL) (x n : Nat),
      Event.sizeCheck x n false ∈ (gaLoop p ps g r pop).1 →
      (gaLoop p ps g r pop).2 = Except.error RunError.popSizeError
      ∧ Event.crossover x ∉ (gaLoop p ps g r pop).1 := by
  intro r
  induction r with
  | zero =>
    intro g pop x n h
    rw [gaLoop_zero] at h
    simp at h
  | succ m ih =>
    intro g pop x n h
    by_cases hlen : pop.length = ps
    · cases hf : firedAt p ps g pop with
      | true =>
        rw [gaLoop_succ_fired p ps g m pop hlen hf] at h
        rcases List.mem_cons.mp h with h | h
        · injection h with h1 h2 h3
          exact Bool.noConfusion h3
        · exact absurd h (sizeCheck_not_mem_genStepEvs p ps g pop x n false)
      | false =>
        rw [gaLoop_succ_cont p ps g m pop hlen hf] at h
        rcases List.mem_cons.mp h with h | h
        · injection h with h1 h2 h3
          exact Bool.noConfusion h3
        · rcases List.mem_append.mp h with h | h
          · exact absurd h
              (sizeCheck_not_mem_genStepEvs p ps g pop x n false)
          · have hih := ih (g + 1) (selPop p ps g pop) x n h
            have hxlb : g + 1 ≤ x :=
              gaLoop_evGen_lb p ps m (g + 1) (selPop p ps g pop) _ h x rfl
            rw [gaLoop_succ_cont p ps g m pop hlen hf]
            refine ⟨hih.1, ?_⟩
            intro hcx
            rcases List.mem_cons.mp hcx with hcx | hcx
            · exact Event.noConfusion hcx
            · rcases List.mem_append.mp hcx with hcx | hcx
              · have := (crossover_mem_genStepEvs p ps g pop x).mp hcx
                omega
              · exact hih.2 hcx
    · rw [gaLoop_succ_bad p ps g m pop hlen]
      exact ⟨rfl, by simp⟩

theorem gaLoop_exit_imp_crossover (p : RunParams) (ps : Nat) :
    ∀ (r g : Nat) (pop : PopL) (x : Nat) (b : Bool),
      Event.exitCheck x b ∈ (gaLoop p ps g r pop).1 →
      Event.crossover x ∈ (gaLoop p ps g r pop).1 := by
  intro r
  induction r with
  | zero =>
    intro g pop x b h
    rw [gaLoop_zero] at h
    simp at h
  | succ m ih =>
    intro g pop x b h
    by_cases hlen : pop.length = ps
    · cases hf : firedAt p ps g pop with
      | true =>
        rw [gaLoop_succ_fired p ps g m pop hlen hf] at h ⊢
        rcases List.mem_cons.mp h with h | h
        · exact Event.noConfusion h
        · have hx := (exitCheck_mem_genStepEvs p ps g pop x b h).1
          subst hx
          exact List.mem_cons_of_mem _
            ((crossover_mem_genStepEvs p ps x pop x).mpr rfl)
      | false =>
        rw [gaLoop_succ_cont p ps g m pop hlen hf] at h ⊢
        rcases List.mem_cons.mp h with h | h
        · exact Event.noConfusion h
        · rcases List.mem_append.mp h with h | h
          · have hx := (exitCheck_mem_genStepEvs p ps g pop x b h).1
            subst hx
            exact List.mem_cons_of_mem _ (List.mem_append_left _
              ((crossover_mem_genStepEvs p ps x pop x).mpr rfl))
          · exact List.mem_cons_of_mem _ (List.mem_append_right _
              (ih (g + 1) (selPop p ps g pop) x b h))
    · rw [gaLoop_succ_bad p ps g m pop hlen] at h
      rcases List.mem_cons.mp h with h | h
      · exact Event.noConfusion h
      · simp at h

theorem gaLoop_decomp (p : RunParams) (ps : Nat) :
    ∀ (r g : Nat) (pop : PopL) (x : Nat),
      Event.crossover x ∈ (gaLoop p ps g r pop).1 →
      ∃ (q : PopL) (pre post : List Event),
        (gaLoop p ps g r pop).1
          = pre ++ (Event.sizeCheck x q.length true :: genStepEvs p ps x q)
              ++ post
        ∧ q.length = ps
        ∧ (∀ e ∈ pre, ∀ y, evGen e = some y → y < x)
        ∧ (∀ e ∈ post, ∀ y, evGen e = some y → x < y)
        ∧ (firedAt p ps x q = true →
            post = []
            ∧ (gaLoop p ps g r pop).2 = Except.ok (selPop p ps x q)) := by
  intro r
  induction r with
  | zero =>
    intro g pop x h
    rw [gaLoop_zero] at h
    simp at h
  | succ m ih =>
    intro g pop x h
    by_cases hlen : pop.length = ps
    · cases hf : firedAt p ps g pop with
      | true =>
        rw [gaLoop_succ_fired p ps g m pop hlen hf] at h ⊢
        rcases List.mem_cons.mp h with h | h
        · exact Event.noConfusion h
        · have hx := (crossover_mem_genStepEvs p ps g pop x).mp h
          subst hx
          refine ⟨pop, [], [], by simp [hlen], hlen, by simp, by simp, ?_⟩
          intro _
          exact ⟨rfl, rfl⟩
      | false =>
        rw [gaLoop_succ_cont p ps g m pop hlen hf] at h ⊢
        rcases List.mem_cons.mp h with h | h
        · exact Event.noConfusion h
        · rcases List.mem_append.mp h with h | h
          · have hx := (crossover_mem_genStepEvs p ps g pop x).mp h
            subst hx
            refine ⟨pop, [], (gaLoop p ps (x + 1) m (selPop p ps x pop)).1,
              by simp [hlen], hlen, by simp, ?_, ?_⟩
            · intro e he y hy
              have := gaLoop_evGen_lb p ps m (x + 1) (selPop p ps x pop)
                e he y hy
              omega
            · intro hfx
              rw [hf] at hfx
              exact Bool.noConfusion hfx
          · have hxlb : g + 1 ≤ x :=
              gaLoop_evGen_lb p ps m (g + 1) (selPop p ps g pop) _ h x rfl
            obtain ⟨q, pre, post, heq, hq, hpre, hpost, hfired⟩ :=
              ih (g + 1) (selPop p ps g pop) x h
            refine ⟨q, Event.sizeCheck g pop.length true ::
                (genStepEvs p ps g pop ++ pre), post, ?_, hq, ?_, hpost, ?_⟩
            · rw [heq]
              simp
            · intro e he y hy
              rcases List.mem_cons.mp he with rfl | he
              · simp [evGen] at hy
                omega
              · rcases List.mem_append.mp he with he | he
                · have := genStepEvs_evGen p ps g pop e he
                  rw [this] at hy
                  injection hy with hy
                  omega
                · exact hpre e he y hy
            · intro hfx
              exact ⟨(hfired hfx).1, (hfired hfx).2⟩
    · rw [gaLoop_succ_bad p ps g m pop hlen] at h
      rcases List.mem_cons.mp h with h | h
      · exact Event.noConfusion h
      · simp at h

theorem gaLoop_fired_result (p : RunParams) (ps : Nat) :
    ∀ (r g : Nat) (pop : PopL) (x : Nat),
      Event.exitCheck x true ∈ (gaLoop p ps g r pop).1 →
      (∀ inp res, Event.select x inp res ∈ (gaLoop p ps g r pop).1 →
        (gaLoop p ps g r pop).2 = Except.ok res)
      ∧ (∀ y n b, Event.sizeCheck y n b ∈ (gaLoop p ps g r pop).1 →
          y ≤ x) := by
  intro r
  induction r with
  | zero =>
    intro g pop x h
    rw [gaLoop_zero] at h
    simp at h
  | succ m ih =>
    intro g pop x h
    by_cases hlen : pop.length = ps
    · cases hf : firedAt p ps g pop with
      | true =>
        rw [gaLoop_succ_fired p ps g m pop hlen hf] at h
        rcases List.mem_cons.mp h with h | h
        · exact Event.noConfusion h
        · have hx := (exitCheck_mem_genStepEvs p ps g pop x true h).1
          subst hx
          rw [gaLoop_succ_fired p ps x m pop hlen hf]
          constructor
          · intro inp res hs
            rcases List.mem_cons.mp hs with hs | hs
            · exact Event.noConfusion hs
            · have := select_mem_genStepEvs p ps x pop x inp res hs
              rw [this.2.2]
          · intro y n b hy
            rcases List.mem_cons.mp hy with hy | hy
            · injection hy with hy1 hy2 hy3
              omega
            · exact absurd hy (sizeCheck_not_mem_genStepEvs p ps x pop y n b)
      | false =>
        rw [gaLoop_succ_cont p ps g m pop hlen hf] at h
        rcases List.mem_cons.mp h with h | h
        · exact Event.noConfusion h
        · rcases List.mem_append.mp h with h | h
          · have hb := (exitCheck_mem_genStepEvs p ps g pop x true h).2
            rw [hf] at hb
            exact Bool.noConfusion hb
          · have hxlb : g + 1 ≤ x :=
              gaLoop_evGen_lb p ps m (g + 1) (selPop p ps g pop) _ h x rfl
            have hih := ih (g + 1) (selPop p ps g pop) x h
            rw [gaLoop_succ_cont p ps g m pop hlen hf]
            constructor
            · intro inp res hs
              rcases List.mem_cons.mp hs with hs | hs
              · exact Event.noConfusion hs
              · rcases List.mem_append.mp hs with hs | hs
                · have := (select_mem_genStepEvs p ps g pop x inp res hs).1
                  omega
                · exact hih.1 inp res hs
            · intro y n b hy
              rcases List.mem_cons.mp hy with hy | hy
              · injection hy with hy1 hy2 hy3
                omega
              · rcases List.mem_append.mp hy with hy | hy
                · exact absurd hy
                    (sizeCheck_not_mem_genStepEvs p ps g pop y n b)
                · exact hih.2 y n b hy
    · rw [gaLoop_succ_bad p ps g m pop hlen] at h
      rcases List.mem_cons.mp h with h | h
      · exact Event.noConfusion h
      · simp at h

theorem gaLoop_exit_val (p : RunParams) (ps : Nat)
    (hnone : p.exitPred = none) :
    ∀ (r g : Nat) (pop : PopL) (x : Nat) (b : Bool),
      Event.exitCheck x b ∈ (gaLoop p ps g r pop).1 → b = false := by
  intro r
  induction r with
  | zero =>
    intro g pop x b h
    rw [gaLoop_zero] at h
    simp at h
  | succ m ih =>
    intro g pop x b h
    by_cases hlen : pop.length = ps
    · cases hf : firedAt p ps g pop with
      | true =>
        rw [firedAt_none p ps g pop hnone] at hf
        exact Bool.noConfusion hf
      | false =>
        rw [gaLoop_succ_cont p ps g m pop hlen hf] at h
        rcases List.mem_cons.mp h with h | h
        · exact Event.noConfusion h
        · rcases List.mem_append.mp h with h | h
          · have hb := (exitCheck_mem_genStepEvs p ps g pop x b h).2
            rw [hf] at hb
            exact hb
          · exact ih (g + 1) (selPop p ps g pop) x b h
    · rw [gaLoop_succ_bad p ps g m pop hlen] at h
      rcases List.mem_cons.mp h with h | h
      · exact Event.noConfusion h
      · simp at h

theorem gaLoop_none_completes (p : RunParams) (ps : Nat)
    (hnone : p.exitPred = none) :
    ∀ (r g : Nat) (pop : PopL) (q : PopL),
      (gaLoop p ps g r pop).2 = Except.ok q →
      ∀ x, g ≤ x → x < g + r →
        Event.exitCheck x false ∈ (gaLoop p ps g r pop).1 := by
  intro r
  induction r with
  | zero =>
    intro g pop q _ x hle hlt
    omega
  | succ m ih =>
    intro g pop q hres x hle hlt
    by_cases hlen : pop.length = ps
    · have hf : firedAt p ps g pop = false := firedAt_none p ps g pop hnone
      rw [gaLoop_succ_cont p ps g m pop hlen hf] at hres ⊢
      by_cases hx : x = g
      · subst hx
        refine List.mem_cons_of_mem _ (List.mem_append_left _ ?_)
        have : Event.exitCheck x (firedAt p ps x pop)
            ∈ genStepEvs p ps x pop := by
          simp [genStepEvs, genStages]
        rwa [firedAt_none p ps x pop hnone] at this
      · refine List.mem_cons_of_mem _ (List.mem_append_right _ ?_)
        exact ih (g + 1) (selPop p ps g pop) q hres x (by omega) (by omega)
    · rw [gaLoop_succ_bad p ps g m pop hlen] at hres
      exact Except.noConfusion hres

theorem gaLoop_exit_count (p : RunParams) (ps : Nat) :
    ∀ (r g : Nat) (pop : PopL) (x : Nat) (b : Bool),
      Event.exitCheck x b ∈ (gaLoop p ps g r pop).1 →
      (gaLoop p ps g r pop).1.countP (isExitAt x) = 1 := by
  intro r
  induction r with
  | zero =>
    intro g pop x b h
    rw [gaLoop_zero] at h
    simp at h
  | succ m ih =>
    intro g pop x b h
    by_cases hlen : pop.length = ps
    · cases hf : firedAt p ps g pop with
      | true =>
        rw [gaLoop_succ_fired p ps g m pop hlen hf] at h ⊢
        rcases List.mem_cons.mp h with h | h
        · exact Event.noConfusion h
        · have hx := (exitCheck_mem_genStepEvs p ps g pop x b h).1
          subst hx
          rw [List.countP_cons]
          rw [countExit_genStepEvs p ps x pop x]
          simp [isExitAt]
      | false =>
        rw [gaLoop_succ_cont p ps g m pop hlen hf] at h ⊢
        rw [List.countP_cons, List.countP_append]
        rcases List.mem_cons.mp h with h | h
        · exact Event.noConfusion h
        · rcases List.mem_append.mp h with h | h
          · have hx := (exitCheck_mem_genStepEvs p ps g pop x b h).1
            subst hx
            rw [countExit_genStepEvs p ps x pop x]
            have htail :
                (gaLoop p ps (x + 1) m (selPop p ps x pop)).1.countP
                  (isExitAt x) = 0 := by
              rw [List.countP_eq_zero]
              intro e he hTrue
              have hev := isExitAt_true_evGen x e hTrue
              have := gaLoop_evGen_lb p ps m (x + 1) (selPop p ps x pop)
                e he x hev
              omega
            rw [htail]
            simp [isExitAt]
          · have hxlb : g + 1 ≤ x :=
              gaLoop_evGen_lb p ps m (g + 1) (selPop p ps g pop) _ h x rfl
            have hgs : (genStepEvs p ps g pop).countP (isExitAt x) = 0 := by
              rw [countExit_genStepEvs p ps g pop x]
              simp
              omega
            rw [hgs, ih (g + 1) (selPop p ps g pop) x b h]
            simp [isExitAt]
    · rw [gaLoop_succ_bad p ps g m pop hlen] at h
      rcases List.mem_cons.mp h with h | h
      · exact Event.noConfusion h
      · simp at h

theorem pu_ec_sublist_genStepEvs (p : RunParams) (ps g : Nat) (pop : PopL) :
    List.Sublist
      [Event.progressUpdate g, Event.exitCheck g (firedAt p ps g pop)]
      (genStepEvs p ps g pop) := by
  simp only [genStepEvs, genStages]
  exact ((((((((((((List.Sublist.refl _).cons _).cons _).cons _).cons
    _).cons _).cons _).cons _).cons _).cons _).cons _).cons _).cons _

theorem gaLoop_exit_sublist (p : RunParams) (ps : Nat) :
    ∀ (r g : Nat) (pop : PopL) (x : Nat) (b : Bool),
      Event.exitCheck x b ∈ (gaLoop p ps g r pop).1 →
      List.Sublist [Event.progressUpdate x, Event.exitCheck x b]
        (gaLoop p ps g r pop).1 := by
  intro r
  induction r with
  | zero =>
    intro g pop x b h
    rw [gaLoop_zero] at h
    simp at h
  | succ m ih =>
    intro g pop x b h
    by_cases hlen : pop.length = ps
    · cases hf : firedAt p ps g pop with
      | true =>
        rw [gaLoop_succ_fired p ps g m pop hlen hf] at h ⊢
        rcases List.mem_cons.mp h with h | h
        · exact Event.noConfusion h
        · obtain ⟨hx, hb⟩ := exitCheck_mem_genStepEvs p ps g pop x b h
          subst hx
          subst hb
          exact (pu_ec_sublist_genStepEvs p ps x pop).cons _
      | false =>
        rw [gaLoop_succ_cont p ps g m pop hlen hf] at h ⊢
        rcases List.mem_cons.mp h with h | h
        · exact Event.noConfusion h
        · rcases List.mem_append.mp h with h | h
          · obtain ⟨hx, hb⟩ := exitCheck_mem_genStepEvs p ps g pop x b h
            subst hx
            subst hb
            exact ((pu_ec_sublist_genStepEvs p ps x pop).trans
              (List.sublist_append_left _ _)).cons _
          · exact ((ih (g + 1) (selPop p ps g pop) x b h).trans
              (List.sublist_append_right _ _)).cons _
    · rw [gaLoop_succ_bad p ps g m pop hlen] at h
      rcases List.mem_cons.mp h with h | h
      · exact Event.noConfusion h
      · simp at h

theorem isExitAt_true_exists (x : Nat) (e : Event)
    (h : isExitAt x e = true) : ∃ b, e = Event.exitCheck x b := by
  cases e <;> simp_all [isExitAt]

theorem loopOf_eq (p : RunParams) :
    loopOf p
      = gaLoop p (effPopSize p) 1 p.numGenerations (initialPhasePop p) := rfl

theorem countExit_preEvents (p : RunParams) (x : Nat) :
    (preEvents p).countP (isExitAt x) = 0 := by
  rw [List.countP_eq_zero]
  intro e he hT
  obtain ⟨b, rfl⟩ := isExitAt_true_exists x e hT
  exact exitCheck_not_mem_preEvents p x b he

theorem countExit_postEvents (x : Nat) :
    postEvents.countP (isExitAt x) = 0 := by
  rw [List.countP_eq_zero]
  intro e he hT
  obtain ⟨b, rfl⟩ := isExitAt_true_exists x e hT
  exact exitCheck_not_mem_postEvents x b he

/-!
## Run-level membership lifting
-/

theorem loop_mem_run (p : RunParams) (e : Event)
    (h : e ∈ (loopOf p).1) : e ∈ (run p).1 := by
  cases hres : (loopOf p).2 with
  | error err =>
    rw [run_error_eq p err hres]
    exact List.mem_append_right _ h
  | ok q =>
    rw [run_ok_eq p q hres]
    exact List.mem_append_left _ (List.mem_append_right _ h)

theorem run_mem_sizeCheck (p : RunParams) (x n : Nat) (b : Bool)
    (h : Event.sizeCheck x n b ∈ (run p).1) :
    Event.sizeCheck x n b ∈ (loopOf p).1 := by
  cases hres : (loopOf p).2 with
  | error err =>
    rw [run_error_eq p err hres] at h
    rcases List.mem_append.mp h with h | h
    · exact absurd h (sizeCheck_not_mem_preEvents p x n b)
    · exact h
  | ok q =>
    rw [run_ok_eq p q hres] at h
    rcases List.mem_append.mp h with h | h
    · rcases List.mem_append.mp h with h | h
      · exact absurd h (sizeCheck_not_mem_preEvents p x n b)
      · exact h
    · exact absurd h (sizeCheck_not_mem_postEvents x n b)

theorem run_mem_crossover (p : RunParams) (x : Nat)
    (h : Event.crossover x ∈ (run p).1) :
    Event.crossover x ∈ (loopOf p).1 := by
  cases hres : (loopOf p).2 with
  | error err =>
    rw [run_error_eq p err hres] at h
    rcases List.mem_append.mp h with h | h
    · exact absurd h (crossover_not_mem_preEvents p x)
    · exact h
  | ok q =>
    rw [run_ok_eq p q hres] at h
    rcases List.mem_append.mp h with h | h
    · rcases List.mem_append.mp h with h | h
      · exact absurd h (crossover_not_mem_preEvents p x)
      · exact h
    · exact absurd h (crossover_not_mem_postEvents x)

theorem run_mem_exitCheck (p : RunParams) (x : Nat) (b : Bool)
    (h : Event.exitCheck x b ∈ (run p).1) :
    Event.exitCheck x b ∈ (loopOf p).1 := by
  cases hres : (loopOf p).2 with
  | error err =>
    rw [run_error_eq p err hres] at h
    rcases List.mem_append.mp h with h | h
    · exact absurd h (exitCheck_not_mem_preEvents p x b)
    · exact h
  | ok q =>
    rw [run_ok_eq p q hres] at h
    rcases List.mem_append.mp h with h | h
    · rcases List.mem_append.mp h with h | h
      · exact absurd h (exitCheck_not_mem_preEvents p x b)
      · exact h
    · exact absurd h (exitCheck_not_mem_postEvents x b)

theorem run_mem_select (p : RunParams) (x : Nat) (inp res : PopL)
    (h : Event.select x inp res ∈ (run p).1) :
    Event.select x inp res ∈ (loopOf p).1 := by
  cases hres : (loopOf p).2 with
  | error err =>
    rw [run_error_eq p err hres] at h
    rcases List.mem_append.mp h with h | h
    · exact absurd h (select_not_mem_preEvents p x inp res)
    · exact h
  | ok q =>
    rw [run_ok_eq p q hres] at h
    rcases List.mem_append.mp h with h | h
    · rcases List.mem_append.mp h with h | h
      · exact absurd h (select_not_mem_preEvents p x inp res)
      · exact h
    · exact absurd h (select_not_mem_postEvents x inp res)

/-- C3: in every generation the working population becomes the
deduplicated union of the previous population, the offspring and the
mutants.  The code performs `pop += offspring + mutants` followed by
`pop.remove_duplicates()` (lines 129-135 of `src/__main__.py`), i.e. it
deduplicates `merge(pop, merge(offspring, mutants))`; this has the same
flattened candidate list as the specification's
`population.merge(offspring).merge(mutants).deduplicate()`, and the
run's merge-and-deduplicate step computes exactly that value.  In this
embedding every population operation is a pure function producing a new
population value. -/
theorem c3_merge_dedup_equiv :
    (∀ pop offspring mutants : Pop,
      flattenPop (dedupPop (mergeP pop (mergeP offspring mutants)))
        = flattenPop (dedupPop (mergeP (mergeP pop offspring) mutants)))
    ∧ (∀ (p : RunParams) (g : Nat) (q : PopL),
        mergedPop p g q
          = flattenPop (dedupPop
              (mergeP (mergeP (ofList q) (ofList (p.genOffspring g q)))
                (ofList (p.genMutants g q))))) := by
  have key : ∀ pop offspring mutants : Pop,
      flattenPop (dedupPop (mergeP pop (mergeP offspring mutants)))
        = flattenPop (dedupPop (mergeP (mergeP pop offspring) mutants)) := by
    intro a b c
    rw [flattenPop_dedupPop, flattenPop_dedupPop]
    rw [flattenPop_mergeP, flattenPop_mergeP, flattenPop_mergeP,
      flattenPop_mergeP, List.append_assoc]
  exact ⟨key, fun p g q => key (ofList q) (ofList (p.genOffspring g q))
    (ofList (p.genMutants g q))⟩

/-!
## Smiles key maker
-/

/-- C8: the candidate identity fingerprint produced by the `Smiles` key
maker is deterministic and independent of in-memory object identity: two
structurally equal molecules (possibly distinct objects, e.g. from
different processes) receive equal key strings, and `get_key_name`
returns the string SMILES. -/
theorem c8_smiles_key_structural (m1 m2 : Molecule)
    (h : m1.struct = m2.struct) :
    Smiles.get_key m1 = Smiles.get_key m2
    ∧ Smiles.get_key_name = "SMILES" := by
  refine ⟨?_, rfl⟩
  simp [Smiles.get_key, get_smiles, h]

/-- Witness for C8: two molecules with the same structure but different
object identities receive the same key. -/
theorem c8_smiles_key_structural_witness :
    Smiles.get_key ⟨0, ⟨[7, 6, 6, 7], [(0, 1, 1), (1, 2, 1), (2, 3, 1)]⟩⟩
      = Smiles.get_key ⟨1, ⟨[7, 6, 6, 7], [(0, 1, 1), (1, 2, 1), (2, 3, 1)]⟩⟩
    ∧ Smiles.get_key_name = "SMILES" :=
  c8_smiles_key_structural
    ⟨0, ⟨[7, 6, 6, 7], [(0, 1, 1), (1, 2, 1), (2, 3, 1)]⟩⟩
    ⟨1, ⟨[7, 6, 6, 7], [(0, 1, 1), (1, 2, 1), (2, 3, 1)]⟩⟩
    rfl

/-!
## BuildingBlock placer ids and file initialization
-/

theorem flatten_eq (l : List (List Nat)) : flatten l = l.flatten := by
  induction l with
  | nil => rfl
  | cons x xs ih => simp [flatten, ih]

/-- C9: `_normalize_placer_ids` resolves the placer ids by a fixed
three-case rule: a supplied `placer_ids` tuple is used verbatim;
otherwise, with at least one functional group, the in-order
concatenation of each functional group's placer ids; otherwise the ids
of all atoms. -/
theorem c9_placer_id_resolution (atoms : List Atom)
    (pids : Option (List Nat)) (fgs : List FunctionalGroup) :
    (∀ ids, pids = some ids → normalize_placer_ids atoms pids fgs = ids)
    ∧ (pids = none → fgs ≠ [] →
        normalize_placer_ids atoms pids fgs
          = (fgs.map FunctionalGroup.get_placer_ids).flatten)
    ∧ (pids = none → fgs = [] →
        normalize_placer_ids atoms pids fgs = atoms.map Atom.get_id) := by
  refine ⟨?_, ?_, ?_⟩
  · intro ids h
    subst h
    rfl
  · intro h hne
    subst h
    simp [normalize_placer_ids, List.isEmpty_iff, hne, flatten_eq]
  · intro h he
    subst h
    subst he
    rfl

theorem init_from_file_eq (path : String) :
    init_from_file path =
      if (splitext path).2 = ".mol" then Except.ok RdkitParser.molFromMolFile
      else if (splitext path).2 = ".sdf" then
        Except.ok RdkitParser.molFromMolFile
      else if (splitext path).2 = ".pdb" then
        Except.ok RdkitParser.molFromPDBFile
      else
        Except.error
          ("Unable to initialize from " ++ (splitext path).2 ++ " files.") := by
  rw [init_from_file, init_funcs]
  by_cases h1 : (splitext path).2 = ".mol"
  · simp [List.lookup, h1]
  · by_cases h2 : (splitext path).2 = ".sdf"
    · simp [List.lookup, h1, h2]
    · by_cases h3 : (splitext path).2 = ".pdb"
      · simp [List.lookup, h1, h2, h3]
      · simp [List.lookup, h1, h2, h3, beq_eq_false_iff_ne.mpr h1,
          beq_eq_false_iff_ne.mpr h2, beq_eq_false_iff_ne.mpr h3]

/-- C10: `init_from_file` raises `ValueError` exactly when the
`os.path.splitext` extension of the supplied path is none of `.mol`,
`.sdf`, `.pdb`; a supported extension passes the check and the file is
routed to the corresponding rdkit parser (`MolFromMolFile` for `.mol`
and `.sdf`, `MolFromPDBFile` for `.pdb`). -/
theorem c10_init_from_file_extension (path : String) :
    ((∃ msg, init_from_file path = Except.error msg) ↔
       (splitext path).2 ∉ [".mol", ".sdf", ".pdb"])
    ∧ ((splitext path).2 = ".mol" ∨ (splitext path).2 = ".sdf" →
        init_from_file path = Except.ok RdkitParser.molFromMolFile)
    ∧ ((splitext path).2 = ".pdb" →
        init_from_file path = Except.ok RdkitParser.molFromPDBFile) := by
  rw [init_from_file_eq]
  by_cases h1 : (splitext path).2 = ".mol"
  · simp [h1]
  · by_cases h2 : (splitext path).2 = ".sdf"
    · simp [h1, h2]
    · by_cases h3 : (splitext path).2 = ".pdb"
      · simp [h1, h2, h3]
      · simp [h1, h2, h3]

/-!
## Claims about the `run()` orchestrator
-/

/-- Claim C1, amended: at the top of every generation, before variation
begins, the flattened population size is checked against the run's
`pop_size`; a recorded check outcome is `true` exactly when the size
matched, a `false` outcome raises the fatal, non-retryable
`PopulationSizeError` terminating the run at once (no variation of that
generation, no end-of-run phase), and a `true` outcome lets variation
proceed.  The selection result itself is re-checked only by the next
generation's top-of-loop check; the final generation's survivor
selection (and a selection after which the exit predicate fires) is not
followed by any size check — see the counterexample
recorded separately. -/
theorem c1_size_check_semantics (p : RunParams) :
    (∀ x, Event.crossover x ∈ (run p).1 →
        ∃ n, Event.sizeCheck x n true ∈ (run p).1)
    ∧ (∀ x n b, Event.sizeCheck x n b ∈ (run p).1 →
        b = decide (n = effPopSize p))
    ∧ (∀ x n, Event.sizeCheck x n false ∈ (run p).1 →
        (run p).2 = Except.error RunError.popSizeError
        ∧ Event.crossover x ∉ (run p).1
        ∧ Event.tar ∉ (run p).1) := by
  refine ⟨?_, ?_, ?_⟩
  · intro x h
    have hl := run_mem_crossover p x h
    rw [loopOf_eq] at hl
    obtain ⟨q, pre, post, heq, hq, _, _, _⟩ :=
      gaLoop_decomp p (effPopSize p) p.numGenerations 1
        (initialPhasePop p) x hl
    refine ⟨q.length, loop_mem_run p _ ?_⟩
    rw [loopOf_eq, heq]
    simp
  · intro x n b hb
    have hl := run_mem_sizeCheck p x n b hb
    rw [loopOf_eq] at hl
    exact gaLoop_sizeCheck_val p (effPopSize p) p.numGenerations 1
      (initialPhasePop p) x n b hl
  · intro x n h
    have hl := run_mem_sizeCheck p x n false h
    rw [loopOf_eq] at hl
    have hfc := gaLoop_falseCheck p (effPopSize p) p.numGenerations 1
      (initialPhasePop p) x n hl
    have hres : (loopOf p).2 = Except.error RunError.popSizeError := by
      rw [loopOf_eq]
      exact hfc.1
    refine ⟨?_, ?_, ?_⟩
    · rw [run_error_eq p _ hres]
    · intro hcx
      have hcl := run_mem_crossover p x hcx
      rw [loopOf_eq] at hcl
      exact hfc.2 hcl
    · intro htar
      rw [run_error_eq p _ hres] at htar
      rcases List.mem_append.mp htar with htar | htar
      · exact tar_not_mem_preEvents p htar
      · rw [loopOf_eq] at htar
        exact gaLoop_no_tar p (effPopSize p) p.numGenerations 1
          (initialPhasePop p) htar

/-- Counterexample to claim C1 as stated: in a 1-generation run whose
survivor selection returns 3 candidates although `pop_size = 2`, the
selection event with the oversized result is in the trace, yet the run
completes normally (no `PopulationSizeError`), and no failed size check
is ever recorded: the fatal check does **not** apply after survivor
selection when no further generation follows. -/
theorem c1_post_selection_unchecked :
    Event.select 1 [⟨0⟩, ⟨1⟩] [⟨2⟩, ⟨0⟩, ⟨1⟩]
        ∈ (run oversizedSelectParams).1
    ∧ (run oversizedSelectParams).2 = Except.ok [⟨2⟩, ⟨0⟩, ⟨1⟩]
    ∧ ([⟨2⟩, ⟨0⟩, ⟨1⟩] : PopL).length ≠ effPopSize oversizedSelectParams
    ∧ (run oversizedSelectParams).1.countP
        (fun e =>
          match e with
          | Event.sizeCheck _ _ false => true
          | _ => false) = 0 := by
  refine ⟨by decide, rfl, by decide, by decide⟩

/-- Claim C2: when the initializer is the restore-from-checkpoint
function (`load`), the run's `pop_size` is overwritten with the size of
the restored population (`src/__main__.py` line 67), and every
generation-top size check of the run compares the flattened size against
that restored size. -/
theorem c2_load_overrides_pop_size (p : RunParams)
    (h : p.initIsLoad = true) :
    effPopSize p = p.initialPop.length
    ∧ ∀ x n b, Event.sizeCheck x n b ∈ (run p).1 →
        b = decide (n = p.initialPop.length) := by
  have he : effPopSize p = p.initialPop.length := by
    simp [effPopSize, h]
  refine ⟨he, ?_⟩
  intro x n b hb
  have hl := run_mem_sizeCheck p x n b hb
  rw [loopOf_eq] at hl
  have := gaLoop_sizeCheck_val p (effPopSize p) p.numGenerations 1
    (initialPhasePop p) x n b hl
  rwa [he] at this

/-- Witness for C2: a restart run restoring 3 candidates with a
configured `pop_size` of 7 runs with an effective `pop_size` of 3. -/
theorem c2_load_overrides_pop_size_witness :
    effPopSize loadParams = 3 :=
  (c2_load_overrides_pop_size loadParams rfl).1.trans rfl

/-- Claim C4: the exit predicate is evaluated exactly once per executed
generation, after that generation's checkpoint (`progress.update`
precedes the exit check in the trace); if it fires, the run's result is
exactly that generation's survivors and no later generation begins
(every size check in the trace belongs to a generation no later than the
firing one); if no exit predicate is configured, every exit check
reports `false` and a run that ends without a fatal error has performed
the exit check of every configured generation, i.e. completed them
all. -/
theorem c4_exit_check_semantics (p : RunParams) :
    (∀ x b, Event.exitCheck x b ∈ (run p).1 →
        (run p).1.countP (isExitAt x) = 1
        ∧ List.Sublist [Event.progressUpdate x, Event.exitCheck x b]
            (run p).1)
    ∧ (∀ x inp res, Event.exitCheck x true ∈ (run p).1 →
        Event.select x inp res ∈ (run p).1 →
        (run p).2 = Except.ok res
        ∧ ∀ y n b, Event.sizeCheck y n b ∈ (run p).1 → y ≤ x)
    ∧ (p.exitPred = none →
        (∀ x b, Event.exitCheck x b ∈ (run p).1 → b = false)
        ∧ ∀ q, (run p).2 = Except.ok q →
            ∀ x, 1 ≤ x → x ≤ p.numGenerations →
              Event.exitCheck x false ∈ (run p).1) := by
  refine ⟨?_, ?_, ?_⟩
  · intro x b h
    have hl := run_mem_exitCheck p x b h
    have hcnt : (loopOf p).1.countP (isExitAt x) = 1 := by
      rw [loopOf_eq]
      rw [loopOf_eq] at hl
      exact gaLoop_exit_count p (effPopSize p) p.numGenerations 1
        (initialPhasePop p) x b hl
    have hsub : List.Sublist
        [Event.progressUpdate x, Event.exitCheck x b] (loopOf p).1 := by
      rw [loopOf_eq]
      rw [loopOf_eq] at hl
      exact gaLoop_exit_sublist p (effPopSize p) p.numGenerations 1
        (initialPhasePop p) x b hl
    constructor
    · cases hres : (loopOf p).2 with
      | error err =>
        rw [run_error_eq p err hres, List.countP_append,
          countExit_preEvents, hcnt]
      | ok q =>
        rw [run_ok_eq p q hres, List.countP_append, List.countP_append,
          countExit_preEvents, countExit_postEvents, hcnt]
    · cases hres : (loopOf p).2 with
      | error err =>
        rw [run_error_eq p err hres]
        exact hsub.trans (List.sublist_append_right _ _)
      | ok q =>
        rw [run_ok_eq p q hres]
        exact sublist_append_middle _ _ hsub
  · intro x inp res hex hsel
    have hexl := run_mem_exitCheck p x true hex
    rw [loopOf_eq] at hexl
    have hsell := run_mem_select p x inp res hsel
    rw [loopOf_eq] at hsell
    have hfr := gaLoop_fired_result p (effPopSize p) p.numGenerations 1
      (initialPhasePop p) x hexl
    have hres2 : (loopOf p).2 = Except.ok res := by
      rw [loopOf_eq]
      exact hfr.1 inp res hsell
    constructor
    · rw [run_ok_eq p res hres2]
    · intro y n b hy
      have hyl := run_mem_sizeCheck p y n b hy
      rw [loopOf_eq] at hyl
      exact hfr.2 y n b hyl
  · intro hnone
    constructor
    · intro x b h
      have hl := run_mem_exitCheck p x b h
      rw [loopOf_eq] at hl
      exact gaLoop_exit_val p (effPopSize p) hnone p.numGenerations 1
        (initialPhasePop p) x b hl
    · intro q hq x h1 h2
      have hres3 : (loopOf p).2 = Except.ok q := by
        cases hres : (loopOf p).2 with
        | error err =>
          rw [run_error_eq p err hres] at hq
          simp at hq
        | ok q' =>
          rw [run_ok_eq p q' hres] at hq
          simp only at hq
          injection hq with hq
          rw [hq]
      have hmem := gaLoop_none_completes p (effPopSize p) hnone
        p.numGenerations 1 (initialPhasePop p) q
        (by rw [loopOf_eq] at hres3; exact hres3) x h1 (by omega)
      refine loop_mem_run p _ ?_
      rw [loopOf_eq]
      exact hmem

/-- Claim C5: a run configured for 3 generations with an exit predicate
whose criterion becomes satisfied after generation 1 (the check at the
end of generation 1 still reports `false`; the check at the end of
generation 2 reports `true`) terminates after creating exactly 2
per-generation checkpoint directories — `1` and `2`, never `3` — with
the `initial` directory counted separately (3 checkpoint directories in
all, not the 4 of a full run). -/
theorem c5_exit_scenario :
    genDirCount (run exitScenarioParams).1 = 2
    ∧ genDirCount (run exitScenarioParams).1 ≠ 3
    ∧ checkpointDirCount (run exitScenarioParams).1 = 3
    ∧ Event.mkdirInitial ∈ (run exitScenarioParams).1
    ∧ Event.mkdirGenDir 1 ∈ (run exitScenarioParams).1
    ∧ Event.mkdirGenDir 2 ∈ (run exitScenarioParams).1
    ∧ Event.mkdirGenDir 3 ∉ (run exitScenarioParams).1
    ∧ Event.exitCheck 1 false ∈ (run exitScenarioParams).1
    ∧ Event.exitCheck 2 true ∈ (run exitScenarioParams).1
    ∧ exitScenarioParams.numGenerations = 3 := by
  decide

/-- Claim C6: the stages of every executed generation occur strictly
sequentially in the order size-check, directory creation, crossover,
mutation, merge+deduplicate, preselection dump, optimize, fitness
evaluation, normalization, survivor selection, checkpoint (`selected`
directory, structure writing, dump, progress update), exit check — the
trace of the run contains the generation's block contiguously in exactly
this order.  The dataflow is visible in the event payloads: optimization
receives the full merged population, fitness evaluation its output,
normalization is recomputed on the full evaluated merged population
(after offspring and mutants were added and duplicates removed, and
after every member's fitness calculation), and survivor selection
receives exactly the normalized population. -/
theorem c6_generation_stage_order (p : RunParams) (x : Nat)
    (h : Event.crossover x ∈ (run p).1) :
    ∃ (q : PopL) (pre post : List Event),
      (run p).1
        = pre
          ++ (Event.sizeCheck x q.length true
               :: [Event.mkdirGenDir x,
                   Event.crossover x,
                   Event.mutation x,
                   Event.mergeDedup x (mergedPop p x q),
                   Event.dumpPop x true,
                   Event.optimize x (mergedPop p x q),
                   Event.evaluate x (p.optimizePop x (mergedPop p x q)),
                   Event.normalize x
                     (p.calcFitness x (p.optimizePop x (mergedPop p x q))),
                   Event.select x
                     (p.normalizeFit x
                       (p.calcFitness x (p.optimizePop x (mergedPop p x q))))
                     (p.genNextGen x (effPopSize p)
                       (p.normalizeFit x
                         (p.calcFitness x
                           (p.optimizePop x (mergedPop p x q))))),
                   Event.mkdirSelected x,
                   Event.writePop x,
                   Event.dumpPop x false,
                   Event.progressUpdate x,
                   Event.exitCheck x (firedAt p (effPopSize p) x q)])
          ++ post := by
  have hl := run_mem_crossover p x h
  rw [loopOf_eq] at hl
  obtain ⟨q, pre, post, heq, hq, hpre, hpost, hfired⟩ :=
    gaLoop_decomp p (effPopSize p) p.numGenerations 1
      (initialPhasePop p) x hl
  have heqL : (loopOf p).1
      = pre ++ (Event.sizeCheck x q.length true
          :: genStepEvs p (effPopSize p) x q) ++ post := by
    rw [loopOf_eq]
    exact heq
  cases hres : (loopOf p).2 with
  | error err =>
    refine ⟨q, preEvents p ++ pre, post, ?_⟩
    rw [run_error_eq p err hres, heqL]
    simp [genStepEvs, genStages, optPop, evPop, nmPop, selPop]
  | ok qf =>
    refine ⟨q, preEvents p ++ pre, post ++ postEvents, ?_⟩
    rw [run_ok_eq p qf hres, heqL]
    simp [genStepEvs, genStages, optPop, evPop, nmPop, selPop]

/-- Witness for C6: in the 2-generation identity run, generation 1 runs
and its stage block appears in the trace in order. -/
theorem c6_generation_stage_order_witness :
    ∃ (q : PopL) (pre post : List Event),
      (run baseParams).1
        = pre
          ++ (Event.sizeCheck 1 q.length true
               :: [Event.mkdirGenDir 1,
                   Event.crossover 1,
                   Event.mutation 1,
                   Event.mergeDedup 1 (mergedPop baseParams 1 q),
                   Event.dumpPop 1 true,
                   Event.optimize 1 (mergedPop baseParams 1 q),
                   Event.evaluate 1
                     (baseParams.optimizePop 1 (mergedPop baseParams 1 q)),
                   Event.normalize 1
                     (baseParams.calcFitness 1
                       (baseParams.optimizePop 1 (mergedPop baseParams 1 q))),
                   Event.select 1
                     (baseParams.normalizeFit 1
                       (baseParams.calcFitness 1
                         (baseParams.optimizePop 1
                           (mergedPop baseParams 1 q))))
                     (baseParams.genNextGen 1 (effPopSize baseParams)
                       (baseParams.normalizeFit 1
                         (baseParams.calcFitness 1
                           (baseParams.optimizePop 1
                             (mergedPop baseParams 1 q))))),
                   Event.mkdirSelected 1,
                   Event.writePop 1,
                   Event.dumpPop 1 false,
                   Event.progressUpdate 1,
                   Event.exitCheck 1
                     (firedAt baseParams (effPopSize baseParams) 1 q)])
          ++ post :=
  c6_generation_stage_order baseParams 1 (by decide)

/-- Claim C7: the external-process cleanup hook (`kill_macromodel`) is
the very first action of the run, before the directory-moving
`archive_output`; every directory move (`archive_output`) in the trace
is preceded by a cleanup invocation of the same run; and a run that
completes ends with the fixed suffix cleanup, plotting, progress dump,
`tar_output`, `archive_output` — i.e. cleanup is invoked again at run
end before the output directory is tarred, moved and archived. -/
theorem c7_cleanup_before_moves (p : RunParams) :
    (run p).1.head? = some Event.kill
    ∧ (∀ pre post, (run p).1 = pre ++ Event.archive :: post →
        Event.kill ∈ pre)
    ∧ (∀ q, (run p).2 = Except.ok q →
        ∃ pre, (run p).1
          = pre ++ [Event.kill, Event.plotEpp, Event.dumpProgress,
              Event.tar, Event.archive]) := by
  have hhead : (run p).1.head? = some Event.kill := by
    cases hres : (loopOf p).2 with
    | error err => rw [run_error_eq p err hres]; rfl
    | ok q => rw [run_ok_eq p q hres]; rfl
  refine ⟨hhead, ?_, ?_⟩
  · intro pre post htr
    cases pre with
    | nil =>
      rw [htr] at hhead
      simp at hhead
    | cons e pre' =>
      rw [htr] at hhead
      simp at hhead
      subst hhead
      exact List.mem_cons_self _ _
  · intro q hq
    have hres : (loopOf p).2 = Except.ok q := by
      cases hres : (loopOf p).2 with
      | error err =>
        rw [run_error_eq p err hres] at hq
        simp at hq
      | ok q' =>
        rw [run_ok_eq p q' hres] at hq
        simp only at hq
        injection hq with hq
        rw [hq]
    refine ⟨preEvents p ++ (loopOf p).1, ?_⟩
    rw [run_ok_eq p q hres]
    rfl

end Stk
